import Mathlib

/-!
Shallow embedding of the stock-portfolio tracker (`src/StockTracker.py`,
class `StockPortfolioTracker`). Monetary quantities and share counts are
Python floats in the source; they are modelled here as exact rationals (ℚ).
Console printing is dropped; the boolean return values (`return False` /
`return True`) of the fallible operations are kept explicitly. Timestamps
(`datetime.datetime.now()`) are external inputs and are passed in as strings.
The external price API (`get_stock_price`) is not modelled: each operation
takes the resolved `price` argument directly (the `price=None` branch defers
to the network and is outside the embedding); `show_portfolio` takes a price
oracle `priceOf : String → ℚ`.
-/

namespace StockTracker

/-- One entry of `portfolio["stocks"]`: the dict
`{"symbol": …, "shares": …, "avg_price": …, "purchase_date": …}`
created in `buy_stock`. -/
structure Position where
  symbol : String
  shares : ℚ
  avg_price : ℚ
  purchase_date : String
deriving DecidableEq, Repr

/-- One entry of `portfolio["transactions"]`: the source appends dicts with a
`"type"` discriminator (`cash_deposit`, `cash_withdrawal`, `buy`, `sell`). -/
inductive Transaction where
  | cash_deposit (amount : ℚ) (date : String)
  | cash_withdrawal (amount : ℚ) (date : String)
  | buy (symbol : String) (shares price total : ℚ) (date : String)
  | sell (symbol : String) (shares price total : ℚ) (date : String)
deriving DecidableEq, Repr

/-- The portfolio dict: `{"stocks": [...], "transactions": [...], "cash": n}`
(the empty shape returned by `_load_portfolio` when no file exists). -/
structure Portfolio where
  stocks : List Position
  transactions : List Transaction
  cash : ℚ
deriving DecidableEq, Repr

/-- `add_cash` (lines 57-70): unconditionally does
`cash += amount` and appends a `cash_deposit` transaction.
There is no validation of `amount` in the source. -/
def add_cash (p : Portfolio) (amount : ℚ) (date : String) : Portfolio :=
  { p with
    cash := p.cash + amount
    transactions := p.transactions ++ [.cash_deposit amount date] }

/-- `withdraw_cash` (lines 72-90): rejects (`return False`, state untouched)
when `amount > cash`; otherwise `cash -= amount`, appends a
`cash_withdrawal` transaction and returns `True`. -/
def withdraw_cash (p : Portfolio) (amount : ℚ) (date : String) :
    Portfolio × Bool :=
  if amount > p.cash then (p, false)
  else
    ({ p with
       cash := p.cash - amount
       transactions := p.transactions ++ [.cash_withdrawal amount date] },
     true)

/-- The position update of `buy_stock` (lines 110-130): scan
`portfolio["stocks"]` for the first entry with matching symbol; if found,
merge in place (`avg_price := (s0*p0 + shares*price) / (s0+shares)`,
`shares := s0 + shares`) and record the combined `total_cost` that line 120
re-binds; if absent, append a fresh position at the end and keep
`total_cost = price * shares` from line 100. Returns the updated list
together with the `total_cost` value that line 138 stores in the
transaction. One divergence from the source: when a merge makes
`total_shares = 0`, line 121's `total_cost / total_shares` raises
`ZeroDivisionError` in Python, while the total division of ℚ yields
`avg_price = 0` here; no success theorem below asserts acceptance on that
degenerate merge (they require `pos.shares + sh ≠ 0` or state the
division expression itself). -/
def applyBuy (stocks : List Position) (symbol : String) (shares price : ℚ)
    (pdate : String) : List Position × ℚ :=
  match stocks with
  | [] => ([⟨symbol, shares, price, pdate⟩], price * shares)
  | s :: rest =>
    if s.symbol = symbol then
      let total_shares := s.shares + shares
      let total_cost := s.shares * s.avg_price + shares * price
      ({ s with avg_price := total_cost / total_shares
                shares := total_shares } :: rest,
       total_cost)
    else
      let r := applyBuy rest symbol shares price pdate
      (s :: r.1, r.2)

/-- `buy_stock` (lines 92-145) with the price already resolved:
`total_cost = price * shares`; reject (`return False`) when
`total_cost > cash`; otherwise deduct it from cash, update the stock list
via `applyBuy`, append a `buy` transaction whose `total` field holds the
(possibly re-bound) `total_cost`, and return `True`. -/
def buy_stock (p : Portfolio) (symbol : String) (shares price : ℚ)
    (pdate tdate : String) : Portfolio × Bool :=
  let total_cost := price * shares
  if total_cost > p.cash then (p, false)
  else
    let r := applyBuy p.stocks symbol shares price pdate
    ({ stocks := r.1
       transactions := p.transactions ++ [.buy symbol shares price r.2 tdate]
       cash := p.cash - total_cost },
     true)

/-- The position update of `sell_stock` (lines 149-184): locate the first
entry with matching symbol (`none` result = `return False`, either the
symbol is absent, line 156, or `shares > stock["shares"]`, line 163);
on exact equality the entry is popped (line 181), otherwise its share count
is decremented in place (line 184, `avg_price` untouched). -/
def applySell (stocks : List Position) (symbol : String) (shares : ℚ) :
    Option (List Position) :=
  match stocks with
  | [] => none
  | s :: rest =>
    if s.symbol = symbol then
      if shares > s.shares then none
      else if shares = s.shares then some rest
      else some ({ s with shares := s.shares - shares } :: rest)
    else
      (applySell rest symbol shares).map (s :: ·)

/-- `sell_stock` (lines 147-199) with the price already resolved: on any
failure the portfolio is untouched and `False` is returned; on success
`cash += price * shares`, the stock list is updated via `applySell`, and a
`sell` transaction with `total = price * shares` is appended. -/
def sell_stock (p : Portfolio) (symbol : String) (shares price : ℚ)
    (tdate : String) : Portfolio × Bool :=
  match applySell p.stocks symbol shares with
  | none => (p, false)
  | some stocks' =>
    ({ stocks := stocks'
       transactions :=
         p.transactions ++ [.sell symbol shares price (price * shares) tdate]
       cash := p.cash + price * shares },
     true)

/-- Python division: raises `ZeroDivisionError` on a zero divisor, so the
embedding returns `none` there, `some (a / b)` otherwise. -/
def pydiv (a b : ℚ) : Option ℚ :=
  if b = 0 then none else some (a / b)

/-- The per-position row of `show_portfolio` (lines 212-235), given the
current price returned for the symbol: `cost_basis = shares * avg_price`,
`current_value = shares * current_price`, `gain_loss`, and
`gain_loss_pct = (gain_loss / cost_basis) * 100` — line 224 divides with no
zero guard, so the row fails (`none`) when `cost_basis = 0`. -/
def positionRow (s : Position) (current_price : ℚ) :
    Option (ℚ × ℚ × ℚ × ℚ) :=
  let cost_basis := s.shares * s.avg_price
  let current_value := s.shares * current_price
  let gain_loss := current_value - cost_basis
  (pydiv gain_loss cost_basis).map
    (fun q => (cost_basis, current_value, gain_loss, q * 100))

/-- The row loop of `show_portfolio` (lines 212-238): each position's row in
order; the whole report aborts (`none`) as soon as one row's division
raises. -/
def portfolioRows (priceOf : String → ℚ) :
    List Position → Option (List (ℚ × ℚ × ℚ × ℚ))
  | [] => some []
  | s :: rest => do
    let r ← positionRow s (priceOf s.symbol)
    let rs ← portfolioRows priceOf rest
    some (r :: rs)

/-- The aggregate of `show_portfolio` (lines 237-245):
`total_value = Σ shares * current_price`, `total_cost = Σ cost_basis`,
`total_with_cash`, `total_gain_loss`, and the guarded
`total_gain_loss_pct = (total_gain_loss / total_cost) * 100 if total_cost > 0
else 0`. The per-row computation must succeed for every position for the
report to be printed at all, hence the `Option`. -/
def show_portfolio (p : Portfolio) (priceOf : String → ℚ) :
    Option (ℚ × ℚ × ℚ × ℚ) :=
  (portfolioRows priceOf p.stocks).map (fun _ =>
    let total_value :=
      (p.stocks.map (fun s => s.shares * priceOf s.symbol)).sum
    let total_cost :=
      (p.stocks.map (fun s => s.shares * s.avg_price)).sum
    let total_with_cash := total_value + p.cash
    let total_gain_loss := total_value - total_cost
    let total_gain_loss_pct :=
      if total_cost > 0 then total_gain_loss / total_cost * 100 else 0
    (total_value, total_with_cash, total_gain_loss, total_gain_loss_pct))

/-- A JSON value, as produced by `json.dump` / consumed by `json.load`
(lines 22-32). The textual layer of the `json` library is external; the
snapshot file is modelled by its parsed structure. -/
inductive Json where
  | num (q : ℚ)
  | str (s : String)
  | arr (xs : List Json)
  | obj (fields : List (String × Json))

/-- Look a key up in a JSON object's field list (dict access `d[k]`). -/
def Json.get (j : Json) (key : String) : Option Json :=
  match j with
  | .obj fields =>
    match fields.find? (fun f => f.1 = key) with
    | some f => some f.2
    | none => none
  | _ => none

/-- The JSON shape of one `portfolio["stocks"]` entry as `buy_stock` builds
it (lines 125-130). -/
def Position.toJson (s : Position) : Json :=
  .obj [("symbol", .str s.symbol), ("shares", .num s.shares),
        ("avg_price", .num s.avg_price),
        ("purchase_date", .str s.purchase_date)]

/-- Read a position back from its snapshot record, by the keys the rest of
the code accesses. -/
def Position.fromJson (j : Json) : Option Position := do
  let .str symbol ← j.get "symbol" | none
  let .num shares ← j.get "shares" | none
  let .num avg_price ← j.get "avg_price" | none
  let .str purchase_date ← j.get "purchase_date" | none
  some ⟨symbol, shares, avg_price, purchase_date⟩

/-- The JSON shape of one `portfolio["transactions"]` entry as the four
mutating operations build it. -/
def Transaction.toJson : Transaction → Json
  | .cash_deposit amount date =>
    .obj [("type", .str "cash_deposit"), ("amount", .num amount),
          ("date", .str date)]
  | .cash_withdrawal amount date =>
    .obj [("type", .str "cash_withdrawal"), ("amount", .num amount),
          ("date", .str date)]
  | .buy symbol shares price total date =>
    .obj [("type", .str "buy"), ("symbol", .str symbol),
          ("shares", .num shares), ("price", .num price),
          ("total", .num total), ("date", .str date)]
  | .sell symbol shares price total date =>
    .obj [("type", .str "sell"), ("symbol", .str symbol),
          ("shares", .num shares), ("price", .num price),
          ("total", .num total), ("date", .str date)]

/-- Read a transaction back from its snapshot record, dispatching on the
`"type"` discriminator as `show_transactions` does (lines 273-291). -/
def Transaction.fromJson (j : Json) : Option Transaction := do
  let .str ty ← j.get "type" | none
  if ty = "cash_deposit" then
    let .num amount ← j.get "amount" | none
    let .str date ← j.get "date" | none
    some (.cash_deposit amount date)
  else if ty = "cash_withdrawal" then
    let .num amount ← j.get "amount" | none
    let .str date ← j.get "date" | none
    some (.cash_withdrawal amount date)
  else if ty = "buy" then
    let .str symbol ← j.get "symbol" | none
    let .num shares ← j.get "shares" | none
    let .num price ← j.get "price" | none
    let .num total ← j.get "total" | none
    let .str date ← j.get "date" | none
    some (.buy symbol shares price total date)
  else if ty = "sell" then
    let .str symbol ← j.get "symbol" | none
    let .num shares ← j.get "shares" | none
    let .num price ← j.get "price" | none
    let .num total ← j.get "total" | none
    let .str date ← j.get "date" | none
    some (.sell symbol shares price total date)
  else none

/-- `_save_portfolio` (lines 29-32): the snapshot written to disk is the
portfolio dict itself, `{"stocks": …, "transactions": …, "cash": …}`. -/
def Portfolio.toJson (p : Portfolio) : Json :=
  .obj [("stocks", .arr (p.stocks.map Position.toJson)),
        ("transactions", .arr (p.transactions.map Transaction.toJson)),
        ("cash", .num p.cash)]

/-- `_load_portfolio` (lines 22-27): reading the snapshot back, as the rest
of the code interprets the loaded dict's fields. -/
def Portfolio.fromJson (j : Json) : Option Portfolio := do
  let .arr stockJs ← j.get "stocks" | none
  let .arr txnJs ← j.get "transactions" | none
  let .num cash ← j.get "cash" | none
  let stocks ← stockJs.mapM Position.fromJson
  let transactions ← txnJs.mapM Transaction.fromJson
  some ⟨stocks, transactions, cash⟩

/-- One menu-driven ledger operation, with its externally supplied
timestamps and resolved price. -/
inductive Op where
  | deposit (amount : ℚ) (date : String)
  | withdraw (amount : ℚ) (date : String)
  | buyOp (symbol : String) (shares price : ℚ) (pdate tdate : String)
  | sellOp (symbol : String) (shares price : ℚ) (tdate : String)

/-- Apply one operation to the portfolio (a rejected operation leaves it
unchanged, as each `return False` path does). -/
def applyOp (p : Portfolio) : Op → Portfolio
  | .deposit amount date => add_cash p amount date
  | .withdraw amount date => (withdraw_cash p amount date).1
  | .buyOp symbol shares price pdate tdate =>
    (buy_stock p symbol shares price pdate tdate).1
  | .sellOp symbol shares price tdate =>
    (sell_stock p symbol shares price tdate).1

/-- Run a sequence of operations left to right. -/
def runOps (p : Portfolio) (ops : List Op) : Portfolio :=
  ops.foldl applyOp p

/-- All quantities fed to an operation are non-negative. -/
def Op.nonneg : Op → Prop
  | .deposit amount _ => 0 ≤ amount
  | .withdraw amount _ => 0 ≤ amount
  | .buyOp _ shares price _ _ => 0 ≤ shares ∧ 0 ≤ price
  | .sellOp _ shares price _ => 0 ≤ shares ∧ 0 ≤ price

/-! ## Helper lemmas -/

theorem applyBuy_not_found (l : List Position) (S : String) (sh pr : ℚ)
    (d : String) (h : ∀ q ∈ l, q.symbol ≠ S) :
    applyBuy l S sh pr d = (l ++ [⟨S, sh, pr, d⟩], pr * sh) := by
  induction l with
  | nil => simp [applyBuy]
  | cons s rest ih =>
    have hs : s.symbol ≠ S := h s (by simp)
    simp [applyBuy, hs, ih (fun q hq => h q (by simp [hq]))]

theorem applyBuy_found (pre suf : List Position) (pos : Position)
    (S : String) (sh pr : ℚ) (d : String)
    (hpre : ∀ q ∈ pre, q.symbol ≠ S) (hpos : pos.symbol = S) :
    applyBuy (pre ++ pos :: suf) S sh pr d =
      (pre ++ { pos with
                avg_price := (pos.shares * pos.avg_price + sh * pr) /
                  (pos.shares + sh)
                shares := pos.shares + sh } :: suf,
       pos.shares * pos.avg_price + sh * pr) := by
  induction pre with
  | nil => simp [applyBuy, hpos]
  | cons s rest ih =>
    have hs : s.symbol ≠ S := hpre s (by simp)
    simp [applyBuy, hs, ih (fun q hq => hpre q (by simp [hq]))]

theorem applySell_not_found (l : List Position) (S : String) (sh : ℚ)
    (h : ∀ q ∈ l, q.symbol ≠ S) :
    applySell l S sh = none := by
  induction l with
  | nil => simp [applySell]
  | cons s rest ih =>
    have hs : s.symbol ≠ S := h s (by simp)
    simp [applySell, hs, ih (fun q hq => h q (by simp [hq]))]

theorem applySell_cons_ne (s : Position) (rest : List Position) (S : String)
    (sh : ℚ) (hs : s.symbol ≠ S) :
    applySell (s :: rest) S sh = (applySell rest S sh).map (s :: ·) := by
  simp [applySell, hs]

theorem applySell_cons_eq (s : Position) (rest : List Position) (S : String)
    (sh : ℚ) (hs : s.symbol = S) :
    applySell (s :: rest) S sh =
      if sh > s.shares then none
      else if sh = s.shares then some rest
      else some ({ s with shares := s.shares - sh } :: rest) := by
  simp [applySell, hs]

theorem applySell_found (pre suf : List Position) (pos : Position)
    (S : String) (sh : ℚ)
    (hpre : ∀ q ∈ pre, q.symbol ≠ S) (hpos : pos.symbol = S)
    (hle : sh ≤ pos.shares) :
    applySell (pre ++ pos :: suf) S sh =
      some (if sh = pos.shares then pre ++ suf
            else pre ++ { pos with shares := pos.shares - sh } :: suf) := by
  induction pre with
  | nil =>
    simp only [List.nil_append, applySell, hpos, if_pos rfl,
      not_lt.mpr hle, if_neg (lt_irrefl pos.shares)]
    by_cases heq : sh = pos.shares <;> simp [hle, not_lt.mpr hle, heq]
  | cons s rest ih =>
    have hs : s.symbol ≠ S := hpre s (by simp)
    have h2 := ih (fun q hq => hpre q (by simp [hq]))
    rw [List.cons_append, applySell_cons_ne _ _ _ _ hs, h2]
    by_cases heq : sh = pos.shares <;> simp [heq]

theorem applyBuy_filter (l : List Position) (S : String) (sh pr : ℚ)
    (d : String) :
    ((applyBuy l S sh pr d).1).filter (fun q => decide (q.symbol ≠ S)) =
      l.filter (fun q => decide (q.symbol ≠ S)) := by
  induction l with
  | nil => simp [applyBuy]
  | cons s rest ih =>
    by_cases hs : s.symbol = S
    · simp [applyBuy, hs]
    · simpa [applyBuy, hs] using ih

theorem applySell_filter (l l2 : List Position) (S : String) (sh : ℚ)
    (h : applySell l S sh = some l2) :
    l2.filter (fun q => decide (q.symbol ≠ S)) =
      l.filter (fun q => decide (q.symbol ≠ S)) := by
  induction l generalizing l2 with
  | nil => simp [applySell] at h
  | cons s rest ih =>
    by_cases hs : s.symbol = S
    · rw [applySell_cons_eq _ _ _ _ hs] at h
      split_ifs at h with h1 h2
      all_goals simp only [Option.some_inj] at h
      all_goals subst h
      all_goals simp [hs]
    · rw [applySell_cons_ne _ _ _ _ hs] at h
      cases hrest : applySell rest S sh with
      | none =>
        rw [hrest] at h
        exact absurd h (by simp)
      | some r =>
        rw [hrest] at h
        have hr : s :: r = l2 := by simpa using h
        subst hr
        simpa [hs] using ih r hrest

theorem position_roundtrip (s : Position) :
    Position.fromJson (Position.toJson s) = some s := rfl

theorem transaction_roundtrip (t : Transaction) :
    Transaction.fromJson (Transaction.toJson t) = some t := by
  cases t <;> rfl

theorem mapM_map_roundtrip {α β : Type} (l : List α) (f : α → β)
    (g : β → Option α) (h : ∀ x, g (f x) = some x) :
    (l.map f).mapM g = some l := by
  induction l with
  | nil => rfl
  | cons x rest ih =>
    rw [List.map_cons, ← List.mapM'_eq_mapM, List.mapM'_cons, h,
        List.mapM'_eq_mapM, ih]
    rfl

/-! ## Claim theorems -/

/-- C1: a successful buy of `s2 > 0` further shares of a held symbol `S` at
price `p2`, with sufficient cash, merges into the single existing position:
shares become `s1 + s2` and average_price becomes
`(s1*p1 + s2*p2) / (s1 + s2)` (weighted-average cost basis). -/
theorem buy_merges_weighted_average_cost
    (p : Portfolio) (pre suf : List Position) (pos : Position)
    (S : String) (s2 p2 : ℚ) (pd td : String)
    (hstocks : p.stocks = pre ++ pos :: suf)
    (hpre : ∀ q ∈ pre, q.symbol ≠ S) (hpos : pos.symbol = S)
    (hsuf : ∀ q ∈ suf, q.symbol ≠ S)
    (hs2 : 0 < s2) (hcash : p2 * s2 ≤ p.cash) :
    (buy_stock p S s2 p2 pd td).2 = true ∧
    (buy_stock p S s2 p2 pd td).1.stocks =
      pre ++ { pos with
               avg_price := (pos.shares * pos.avg_price + s2 * p2) /
                 (pos.shares + s2)
               shares := pos.shares + s2 } :: suf := by
  have hnot : ¬ p2 * s2 > p.cash := not_lt.mpr hcash
  refine ⟨by simp [buy_stock, hnot], ?_⟩
  simp [buy_stock, hnot, hstocks,
    applyBuy_found pre suf pos S s2 p2 pd hpre hpos]

/-- Witness for C1 at a concrete input: holding 2 shares of "A" at 100,
buying 2 more at 200 with cash 1000 yields 4 shares at average 150. -/
theorem buy_merges_weighted_average_cost_witness :
    (buy_stock ⟨[⟨"A", 2, 100, "d"⟩], [], 1000⟩ "A" 2 200 "pd" "td").2 =
      true ∧
    (buy_stock ⟨[⟨"A", 2, 100, "d"⟩], [], 1000⟩ "A" 2 200 "pd" "td").1.stocks
      = [⟨"A", 4, 150, "d"⟩] := by
  have h := buy_merges_weighted_average_cost ⟨[⟨"A", 2, 100, "d"⟩], [], 1000⟩
    [] [] ⟨"A", 2, 100, "d"⟩ "A" 2 200 "pd" "td" rfl (by simp) rfl (by simp)
    (by norm_num) (by norm_num)
  refine ⟨h.1, ?_⟩
  rw [h.2]
  norm_num

/-- C2: for a held position with `h` shares, a successful sell of exactly
`h` shares removes the position entirely; a successful sell of `0 < n < h`
shares leaves it present with `h - n` shares, average_price (and purchase
date) unchanged. -/
theorem sell_removes_or_decrements
    (p : Portfolio) (pre suf : List Position) (pos : Position)
    (S : String) (n pr : ℚ) (td : String)
    (hstocks : p.stocks = pre ++ pos :: suf)
    (hpre : ∀ q ∈ pre, q.symbol ≠ S) (hpos : pos.symbol = S) :
    (n = pos.shares →
      (sell_stock p S n pr td).2 = true ∧
      (sell_stock p S n pr td).1.stocks = pre ++ suf) ∧
    (0 < n → n < pos.shares →
      (sell_stock p S n pr td).2 = true ∧
      (sell_stock p S n pr td).1.stocks =
        pre ++ { pos with shares := pos.shares - n } :: suf) := by
  constructor
  · intro heq
    have h := applySell_found pre suf pos S n hpre hpos (le_of_eq heq)
    rw [if_pos heq] at h
    constructor <;> simp [sell_stock, hstocks, h]
  · intro hn hlt
    have h := applySell_found pre suf pos S n hpre hpos (le_of_lt hlt)
    rw [if_neg (ne_of_lt hlt)] at h
    constructor <;> simp [sell_stock, hstocks, h]

/-- Witness for C2 at concrete inputs: selling all 4 shares of "A" removes
the position; selling 1 of 4 leaves 3 shares at the same average price. -/
theorem sell_removes_or_decrements_witness :
    ((sell_stock ⟨[⟨"A", 4, 150, "d"⟩], [], 0⟩ "A" 4 150 "t").2 = true ∧
     (sell_stock ⟨[⟨"A", 4, 150, "d"⟩], [], 0⟩ "A" 4 150 "t").1.stocks =
       []) ∧
    ((sell_stock ⟨[⟨"A", 4, 150, "d"⟩], [], 0⟩ "A" 1 150 "t").2 = true ∧
     (sell_stock ⟨[⟨"A", 4, 150, "d"⟩], [], 0⟩ "A" 1 150 "t").1.stocks =
       [⟨"A", 3, 150, "d"⟩]) := by
  have h1 := (sell_removes_or_decrements ⟨[⟨"A", 4, 150, "d"⟩], [], 0⟩ [] []
    ⟨"A", 4, 150, "d"⟩ "A" 4 150 "t" rfl (by simp) rfl).1 rfl
  have h2 := (sell_removes_or_decrements ⟨[⟨"A", 4, 150, "d"⟩], [], 0⟩ [] []
    ⟨"A", 4, 150, "d"⟩ "A" 1 150 "t" rfl (by simp) rfl).2
    (by norm_num) (by norm_num)
  exact ⟨⟨h1.1, by rw [h1.2]; rfl⟩, ⟨h2.1, by rw [h2.2]; norm_num⟩⟩

/-- C3: a withdrawal exceeding cash and a buy whose total cost exceeds cash
are rejected with the whole portfolio unchanged; a deposit always applies
its full effect (no cash check exists), and a sell's outcome is independent
of the cash balance. -/
theorem insufficient_cash_rejection (p : Portfolio) :
    (∀ a d, a > p.cash → withdraw_cash p a d = (p, false)) ∧
    (∀ S sh pr d1 d2, pr * sh > p.cash →
      buy_stock p S sh pr d1 d2 = (p, false)) ∧
    (∀ a d, add_cash p a d =
      { p with cash := p.cash + a
               transactions :=
                 p.transactions ++ [.cash_deposit a d] }) ∧
    (∀ S sh pr d c, (sell_stock { p with cash := c } S sh pr d).2 =
      (sell_stock p S sh pr d).2) := by
  refine ⟨?_, ?_, ?_, ?_⟩
  · intro a d h
    simp [withdraw_cash, h]
  · intro S sh pr d1 d2 h
    simp [buy_stock, h]
  · intro a d
    rfl
  · intro S sh pr d c
    simp only [sell_stock]
    cases applySell p.stocks S sh <;> rfl

/-- Witness for C3 at a concrete input: withdrawing 1500 from cash 1000 and
buying 20 shares at 100 with cash 1000 are both rejected unchanged. -/
theorem insufficient_cash_rejection_witness :
    withdraw_cash ⟨[], [], 1000⟩ 1500 "t" = (⟨[], [], 1000⟩, false) ∧
    buy_stock ⟨[], [], 1000⟩ "A" 20 100 "pd" "td" = (⟨[], [], 1000⟩, false)
    := by
  have h := insufficient_cash_rejection ⟨[], [], 1000⟩
  exact ⟨h.1 1500 "t" (by norm_num),
         h.2.1 "A" 20 100 "pd" "td" (by norm_num)⟩

/-- C4 counterexample: the claim says a non-positive deposit is rejected
with the portfolio unchanged, but `add_cash` has no validation: depositing
-5 on cash 10 changes the state (cash becomes 5 and a transaction is
appended). -/
theorem deposit_nonpositive_accepted :
    add_cash ⟨[], [], 10⟩ (-5) "t" =
      ⟨[], [Transaction.cash_deposit (-5) "t"], 5⟩ ∧
    add_cash ⟨[], [], 10⟩ (-5) "t" ≠ ⟨[], [], 10⟩ := by
  constructor
  · simp only [add_cash]
    norm_num
  · simp [add_cash]

/-- C4 amended: no ledger operation validates positivity. A deposit applies
`cash += amount` for every amount, including non-positive ones; a
withdrawal of a non-positive amount passes the only check (`amount > cash`)
whenever cash is non-negative; a buy of non-positive shares at a
non-negative price passes the only check and succeeds when the symbol is
not held, and likewise when it merges into a held position without
bringing the total shares to exactly zero (in that excluded degenerate
case line 121 divides `total_cost` by `total_shares = 0` and the program
raises `ZeroDivisionError` instead of returning); and a sell of
non-positive shares of a held symbol with non-negative holdings
succeeds. -/
theorem no_positivity_validation
    (p : Portfolio) (S : String) (a sh pr : ℚ) (d d1 d2 d3 : String)
    (hcash : 0 ≤ p.cash) (ha : a ≤ 0) (hsh : sh ≤ 0) (hpr : 0 ≤ pr) :
    (add_cash p a d).cash = p.cash + a ∧
    (withdraw_cash p a d).2 = true ∧
    ((∀ q ∈ p.stocks, q.symbol ≠ S) →
      (buy_stock p S sh pr d1 d2).2 = true) ∧
    (∀ pre suf pos, p.stocks = pre ++ pos :: suf →
      (∀ q ∈ pre, q.symbol ≠ S) → pos.symbol = S → pos.shares + sh ≠ 0 →
      (buy_stock p S sh pr d1 d2).2 = true) ∧
    (∀ pre suf pos, p.stocks = pre ++ pos :: suf →
      (∀ q ∈ pre, q.symbol ≠ S) → pos.symbol = S → 0 ≤ pos.shares →
      (sell_stock p S sh pr d3).2 = true) := by
  have hle : pr * sh ≤ 0 := by nlinarith
  have hbuy : ¬ pr * sh > p.cash := not_lt.mpr (le_trans hle hcash)
  refine ⟨rfl, ?_, ?_, ?_, ?_⟩
  · have h : ¬ a > p.cash := not_lt.mpr (le_trans ha hcash)
    simp [withdraw_cash, h]
  · intro hfresh
    simp [buy_stock, hbuy]
  · intro pre suf pos hstocks hpre hpos hnz
    simp [buy_stock, hbuy]
  · intro pre suf pos hstocks hpre hpos hpos0
    have h := applySell_found pre suf pos S sh hpre hpos (le_trans hsh hpos0)
    simp [sell_stock, hstocks, h]

/-- Witness for the amended C4 at concrete inputs: with cash 10 and one
share of "A", a deposit of -5 applies, a withdrawal of -5 succeeds, a buy
of -2 shares of the unheld "B" at price 3 succeeds, a buy of -2 shares of
"A" at price 3 (merging 1 + (-2) = -1 ≠ 0 shares) succeeds, and a sell of
-2 shares of "A" succeeds. -/
theorem no_positivity_validation_witness :
    (add_cash ⟨[⟨"A", 1, 10, "d"⟩], [], 10⟩ (-5) "t").cash = 10 + (-5) ∧
    (withdraw_cash ⟨[⟨"A", 1, 10, "d"⟩], [], 10⟩ (-5) "t").2 = true ∧
    (buy_stock ⟨[⟨"A", 1, 10, "d"⟩], [], 10⟩ "B" (-2) 3 "pd" "td").2 =
      true ∧
    (buy_stock ⟨[⟨"A", 1, 10, "d"⟩], [], 10⟩ "A" (-2) 3 "pd" "td").2 =
      true ∧
    (sell_stock ⟨[⟨"A", 1, 10, "d"⟩], [], 10⟩ "A" (-2) 3 "t").2 = true := by
  have hA := no_positivity_validation ⟨[⟨"A", 1, 10, "d"⟩], [], 10⟩ "A"
    (-5) (-2) 3 "t" "pd" "td" "t" (by norm_num) (by norm_num) (by norm_num)
    (by norm_num)
  have hB := no_positivity_validation ⟨[⟨"A", 1, 10, "d"⟩], [], 10⟩ "B"
    (-5) (-2) 3 "t" "pd" "td" "t" (by norm_num) (by norm_num) (by norm_num)
    (by norm_num)
  refine ⟨hA.1, hA.2.1, hB.2.2.1 ?_, ?_, ?_⟩
  · intro q hq
    simp only [List.mem_singleton] at hq
    subst hq
    decide
  · exact hA.2.2.2.1 [] [] ⟨"A", 1, 10, "d"⟩ rfl (by simp) rfl (by norm_num)
  · exact hA.2.2.2.2 [] [] ⟨"A", 1, 10, "d"⟩ rfl (by simp) rfl (by norm_num)

/-- C5 counterexample: starting from cash 0 (which satisfies cash ≥ 0), the
one-operation sequence consisting of a deposit of -5 — which `add_cash`
accepts — leaves cash at -5 < 0. -/
theorem cash_nonneg_violated :
    0 ≤ (⟨[], [], 0⟩ : Portfolio).cash ∧
    (runOps ⟨[], [], 0⟩ [.deposit (-5) "t"]).cash < 0 := by
  constructor
  · norm_num
  · show (add_cash ⟨[], [], 0⟩ (-5) "t").cash < 0
    simp only [add_cash]
    norm_num

/-- One step of the amended C5 invariant: any single operation whose
quantities are non-negative maps a portfolio with cash ≥ 0 to a portfolio
with cash ≥ 0. -/
theorem applyOp_cash_nonneg (p : Portfolio) (op : Op) (hp : 0 ≤ p.cash)
    (hop : op.nonneg) : 0 ≤ (applyOp p op).cash := by
  cases op with
  | deposit a d =>
    have ha : 0 ≤ a := hop
    have h : (applyOp p (.deposit a d)).cash = p.cash + a := rfl
    rw [h]
    exact add_nonneg hp ha
  | withdraw a d =>
    by_cases h : a > p.cash
    · have he : applyOp p (.withdraw a d) = p := by
        simp [applyOp, withdraw_cash, h]
      rw [he]
      exact hp
    · have he : (applyOp p (.withdraw a d)).cash = p.cash - a := by
        simp [applyOp, withdraw_cash, h]
      rw [he]
      exact sub_nonneg.mpr (not_lt.mp h)
  | buyOp S sh pr d1 d2 =>
    by_cases h : pr * sh > p.cash
    · have he : applyOp p (.buyOp S sh pr d1 d2) = p := by
        simp [applyOp, buy_stock, h]
      rw [he]
      exact hp
    · have he : (applyOp p (.buyOp S sh pr d1 d2)).cash = p.cash - pr * sh :=
        by simp [applyOp, buy_stock, h]
      rw [he]
      exact sub_nonneg.mpr (not_lt.mp h)
  | sellOp S sh pr d =>
    obtain ⟨hsh, hpr⟩ := hop
    cases hsell : applySell p.stocks S sh with
    | none =>
      have he : applyOp p (.sellOp S sh pr d) = p := by
        simp [applyOp, sell_stock, hsell]
      rw [he]
      exact hp
    | some l2 =>
      have he : (applyOp p (.sellOp S sh pr d)).cash = p.cash + pr * sh :=
        by simp [applyOp, sell_stock, hsell]
      rw [he]
      exact add_nonneg hp (mul_nonneg hpr hsh)

/-- C5 amended: starting from any portfolio with cash ≥ 0, cash remains
≥ 0 after any sequence of deposit, withdraw, buy, and sell operations
(successful or rejected) whose amounts, share quantities, and prices are
all non-negative. (A deposit of a negative amount — which the code does not
reject — can drive cash below 0.) -/
theorem cash_nonneg_preserved (p : Portfolio) (ops : List Op)
    (hp : 0 ≤ p.cash) (hops : ∀ op ∈ ops, op.nonneg) :
    0 ≤ (runOps p ops).cash := by
  induction ops generalizing p with
  | nil => exact hp
  | cons op rest ih =>
    have h1 : runOps p (op :: rest) = runOps (applyOp p op) rest := rfl
    rw [h1]
    exact ih (applyOp p op)
      (applyOp_cash_nonneg p op hp (hops op (by simp)))
      (fun o ho => hops o (by simp [ho]))

/-- Witness for the amended C5 at a concrete input: from cash 0, the
sequence deposit 5 then withdraw 3 keeps cash non-negative. -/
theorem cash_nonneg_preserved_witness :
    0 ≤ (runOps ⟨[], [], 0⟩ [.deposit 5 "t", .withdraw 3 "u"]).cash := by
  refine cash_nonneg_preserved ⟨[], [], 0⟩ [.deposit 5 "t", .withdraw 3 "u"]
    (by norm_num) ?_
  intro op hop
  simp only [List.mem_cons, List.not_mem_nil, or_false] at hop
  rcases hop with rfl | rfl
  · show (0:ℚ) ≤ 5
    norm_num
  · show (0:ℚ) ≤ 3
    norm_num

/-- C6: cash evolves by exact arithmetic under each successful operation:
buy subtracts the incremental cost `shares * price` (even when merging),
sell adds `shares * price`, deposit adds the amount, withdrawal subtracts
the amount. -/
theorem cash_exact_arithmetic (p : Portfolio) :
    (∀ S sh pr d1 d2, (buy_stock p S sh pr d1 d2).2 = true →
      (buy_stock p S sh pr d1 d2).1.cash = p.cash - sh * pr) ∧
    (∀ S sh pr d, (sell_stock p S sh pr d).2 = true →
      (sell_stock p S sh pr d).1.cash = p.cash + sh * pr) ∧
    (∀ a d, (add_cash p a d).cash = p.cash + a) ∧
    (∀ a d, (withdraw_cash p a d).2 = true →
      (withdraw_cash p a d).1.cash = p.cash - a) := by
  refine ⟨?_, ?_, fun a d => rfl, ?_⟩
  · intro S sh pr d1 d2 h
    by_cases hc : pr * sh > p.cash
    · simp [buy_stock, hc] at h
    · simp only [buy_stock]
      rw [if_neg hc]
      show p.cash - pr * sh = p.cash - sh * pr
      ring
  · intro S sh pr d h
    cases hs : applySell p.stocks S sh with
    | none => simp [sell_stock, hs] at h
    | some l2 =>
      simp only [sell_stock]
      rw [hs]
      show p.cash + pr * sh = p.cash + sh * pr
      ring
  · intro a d h
    by_cases hc : a > p.cash
    · simp [withdraw_cash, hc] at h
    · simp [withdraw_cash, hc]

/-- Witness for C6 at concrete inputs: with cash 1000 and one position,
buying 2 shares of "B" at 100 leaves cash 1000 - 2*100, selling 1 share of
"A" at 50 leaves 1000 + 1*50, depositing 5 leaves 1000 + 5, and
withdrawing 5 leaves 1000 - 5. -/
theorem cash_exact_arithmetic_witness :
    (buy_stock ⟨[⟨"A", 2, 100, "d"⟩], [], 1000⟩ "B" 2 100 "pd" "td").1.cash
      = 1000 - 2 * 100 ∧
    (sell_stock ⟨[⟨"A", 2, 100, "d"⟩], [], 1000⟩ "A" 1 50 "t").1.cash =
      1000 + 1 * 50 ∧
    (add_cash ⟨[⟨"A", 2, 100, "d"⟩], [], 1000⟩ 5 "t").cash = 1000 + 5 ∧
    (withdraw_cash ⟨[⟨"A", 2, 100, "d"⟩], [], 1000⟩ 5 "t").1.cash =
      1000 - 5 := by
  have h := cash_exact_arithmetic ⟨[⟨"A", 2, 100, "d"⟩], [], 1000⟩
  refine ⟨h.1 "B" 2 100 "pd" "td" ?_, h.2.1 "A" 1 50 "t" ?_,
          h.2.2.1 5 "t", h.2.2.2 5 "t" ?_⟩
  · have hc : ¬ (100:ℚ) * 2 > 1000 := by norm_num
    simp [buy_stock, hc]
  · have hs : applySell [⟨"A", 2, 100, "d"⟩] "A" 1 =
        some [⟨"A", 1, 100, "d"⟩] := by
      have h1 : ¬ (1:ℚ) > 2 := by norm_num
      have h2 : ¬ (1:ℚ) = 2 := by norm_num
      simp only [applySell]
      norm_num
    simp [sell_stock, hs]
  · have hc : ¬ (5:ℚ) > 1000 := by norm_num
    simp [withdraw_cash, hc]

/-- C7: on a merge into an existing position holding `s0` shares at
average `p0`, the appended buy transaction's `total` field records the
combined cost basis `s0*p0 + s*p` (line 120 re-binds `total_cost` before
line 138 stores it); on a new position it records `s*p`. -/
theorem buy_transaction_total_combined
    (p : Portfolio) (S : String) (sh pr : ℚ) (d1 d2 : String)
    (hcash : pr * sh ≤ p.cash) :
    (∀ pre suf pos, p.stocks = pre ++ pos :: suf →
      (∀ q ∈ pre, q.symbol ≠ S) → pos.symbol = S →
      (buy_stock p S sh pr d1 d2).1.transactions =
        p.transactions ++
          [.buy S sh pr (pos.shares * pos.avg_price + sh * pr) d2]) ∧
    ((∀ q ∈ p.stocks, q.symbol ≠ S) →
      (buy_stock p S sh pr d1 d2).1.transactions =
        p.transactions ++ [.buy S sh pr (pr * sh) d2]) := by
  have hnot : ¬ pr * sh > p.cash := not_lt.mpr hcash
  constructor
  · intro pre suf pos hstocks hpre hpos
    simp [buy_stock, hnot, hstocks,
      applyBuy_found pre suf pos S sh pr d1 hpre hpos]
  · intro hnone
    simp [buy_stock, hnot, applyBuy_not_found p.stocks S sh pr d1 hnone]

/-- Witness for C7 at concrete inputs: merging 2 shares at 200 into 2
shares of "A" at 100 records total 600 (= 2*100 + 2*200), not the
incremental 400; a fresh buy of 2 shares at 200 records 400. -/
theorem buy_transaction_total_combined_witness :
    (buy_stock ⟨[⟨"A", 2, 100, "d"⟩], [], 1000⟩ "A" 2 200 "pd"
        "td").1.transactions = [Transaction.buy "A" 2 200 600 "td"] ∧
    (buy_stock ⟨[], [], 1000⟩ "A" 2 200 "pd" "td").1.transactions =
      [Transaction.buy "A" 2 200 400 "td"] := by
  have h1 := (buy_transaction_total_combined ⟨[⟨"A", 2, 100, "d"⟩], [], 1000⟩
    "A" 2 200 "pd" "td" (by norm_num)).1 [] [] ⟨"A", 2, 100, "d"⟩ rfl
    (by simp) rfl
  have h2 := (buy_transaction_total_combined ⟨[], [], 1000⟩
    "A" 2 200 "pd" "td" (by norm_num)).2 (by simp)
  constructor
  · rw [h1]
    norm_num
  · rw [h2]
    norm_num

/-- C8 counterexample: a position with `avg_price = 0` (hence
`cost_basis = 0`) makes line 224 divide by zero — the report fails
(`none`, i.e. `ZeroDivisionError`) instead of being zero-guarded. -/
theorem gain_loss_pct_divzero :
    show_portfolio ⟨[⟨"X", 1, 0, "d"⟩], [], 0⟩ (fun _ => 50) = none := by
  have h : positionRow ⟨"X", 1, 0, "d"⟩ 50 = none := by
    simp [positionRow, pydiv]
  simp [show_portfolio, portfolioRows, h]

/-- If any position's row computation fails, the whole report loop
fails. -/
theorem portfolioRows_none (priceOf : String → ℚ) (l : List Position)
    (s : Position) (hs : s ∈ l)
    (h : positionRow s (priceOf s.symbol) = none) :
    portfolioRows priceOf l = none := by
  induction l with
  | nil => cases hs
  | cons x rest ih =>
    rcases List.mem_cons.mp hs with rfl | hmem
    · simp [portfolioRows, h]
    · cases hx : positionRow x (priceOf x.symbol) with
      | none => simp [portfolioRows, hx]
      | some r => simp [portfolioRows, hx, ih hmem]

/-- C8 amended: the per-position `gain_loss_pct` computation is NOT
zero-guarded: for every position with `cost_basis = 0` the division at
line 224 raises, so the per-position row — and with it the whole portfolio
report — fails rather than printing. (Only the aggregate
`total_gain_loss_pct` at line 245 carries a zero guard.) -/
theorem gain_loss_pct_unguarded (p : Portfolio) (priceOf : String → ℚ)
    (s : Position) (hs : s ∈ p.stocks) (h0 : s.shares * s.avg_price = 0) :
    positionRow s (priceOf s.symbol) = none ∧
    show_portfolio p priceOf = none := by
  have hrow : positionRow s (priceOf s.symbol) = none := by
    simp [positionRow, pydiv, h0]
  exact ⟨hrow,
    by simp [show_portfolio, portfolioRows_none priceOf p.stocks s hs hrow]⟩

/-- Witness for the amended C8 at a concrete input: one share of "X" with
average price 0 makes the row (and the report) fail. -/
theorem gain_loss_pct_unguarded_witness :
    positionRow ⟨"X", 1, 0, "d"⟩ ((fun _ => 50) "X") = none ∧
    show_portfolio ⟨[⟨"X", 1, 0, "d"⟩], [], 7⟩ (fun _ => 50) = none :=
  gain_loss_pct_unguarded ⟨[⟨"X", 1, 0, "d"⟩], [], 7⟩ (fun _ => 50)
    ⟨"X", 1, 0, "d"⟩ (by simp) (by norm_num)

/-- C9: saving a portfolio and loading it back yields a structure identical
field-for-field (the snapshot is the portfolio dict itself, and reading its
keys recovers every field). -/
theorem save_load_roundtrip (p : Portfolio) :
    Portfolio.fromJson (Portfolio.toJson p) = some p := by
  have h1 : (p.stocks.map Position.toJson).mapM Position.fromJson =
      some p.stocks :=
    mapM_map_roundtrip p.stocks Position.toJson Position.fromJson
      position_roundtrip
  have h2 : (p.transactions.map Transaction.toJson).mapM
      Transaction.fromJson = some p.transactions :=
    mapM_map_roundtrip p.transactions Transaction.toJson Transaction.fromJson
      transaction_roundtrip
  have h1l : List.mapM.loop Position.fromJson
      (p.stocks.map Position.toJson) [] = some p.stocks := h1
  have h2l : List.mapM.loop Transaction.fromJson
      (p.transactions.map Transaction.toJson) [] = some p.transactions := h2
  simp [Portfolio.toJson, Portfolio.fromJson, Json.get, h1l, h2l]

/-- C10: a buy or sell of symbol `S` (successful or rejected) leaves every
position of a different symbol entirely unchanged and preserves their
relative order: the sublist of non-`S` positions is the same before and
after. -/
theorem trade_frame (p : Portfolio) (S : String) (sh pr : ℚ)
    (d1 d2 d3 : String) :
    ((buy_stock p S sh pr d1 d2).1.stocks).filter
        (fun q => decide (q.symbol ≠ S)) =
      p.stocks.filter (fun q => decide (q.symbol ≠ S)) ∧
    ((sell_stock p S sh pr d3).1.stocks).filter
        (fun q => decide (q.symbol ≠ S)) =
      p.stocks.filter (fun q => decide (q.symbol ≠ S)) := by
  constructor
  · by_cases h : pr * sh > p.cash
    · have he : (buy_stock p S sh pr d1 d2).1.stocks = p.stocks := by
        simp [buy_stock, h]
      rw [he]
    · have he : (buy_stock p S sh pr d1 d2).1.stocks =
          (applyBuy p.stocks S sh pr d1).1 := by
        simp [buy_stock, h]
      rw [he]
      exact applyBuy_filter p.stocks S sh pr d1
  · cases hs : applySell p.stocks S sh with
    | none =>
      have he : (sell_stock p S sh pr d3).1.stocks = p.stocks := by
        simp [sell_stock, hs]
      rw [he]
    | some l2 =>
      have he : (sell_stock p S sh pr d3).1.stocks = l2 := by
        simp [sell_stock, hs]
      rw [he]
      exact applySell_filter p.stocks l2 S sh hs

end StockTracker
